import Mathlib

/-!
Verification of the region-aware color and composition analysis engine of the
outfit-rate repository (source: `src/src/App.jsx`).

The JavaScript source is shallowly embedded: JS floating-point arithmetic is
modelled by exact rational arithmetic over `ℚ`, byte samples by `ℕ`,
`Math.round` by Mathlib's `round` (both round half toward positive infinity),
and JS `null` results by `Option`.  Each definition carries a note pointing to
the source lines it embeds.
-/

namespace OutfitRate

/-! ## Color math (App.jsx lines 21-84)

`rgbToHsl` (lines 26-43) first rescales each channel by `r /= 255` and then
works with the normalized values; the normalized part is embedded as
`rgbToHslAux`, whose `let`-bound intermediate values (`max`, `min`, `l`, `s`,
the `switch` computing `h`) become the named definitions `maxc`, `minc`,
`lig`, `sat`, `hue6`. -/

/-- Channel-wise maximum, `const max = Math.max(r, g, b)` (line 28). -/
def maxc (r g b : ℚ) : ℚ := max r (max g b)

/-- Channel-wise minimum, `const min = Math.min(r, g, b)` (line 28). -/
def minc (r g b : ℚ) : ℚ := min r (min g b)

/-- Lightness `l = (max + min) / 2` (line 29). -/
def lig (r g b : ℚ) : ℚ := (maxc r g b + minc r g b) / 2

/-- Saturation in the chromatic case:
`s = l > 0.5 ? d / (2 - max - min) : d / (max + min)` (line 33). -/
def sat (r g b : ℚ) : ℚ :=
  if lig r g b > 1/2 then (maxc r g b - minc r g b) / (2 - maxc r g b - minc r g b)
  else (maxc r g b - minc r g b) / (maxc r g b + minc r g b)

/-- Hue (scaled by 6) in the chromatic case: the `switch (max)` on lines 34-39.
JS `switch` compares with `===` in source order `r`, `g`, `b`; first match wins. -/
def hue6 (r g b : ℚ) : ℚ :=
  if maxc r g b = r then (g - b) / (maxc r g b - minc r g b) + (if g < b then (6:ℚ) else 0)
  else if maxc r g b = g then (b - r) / (maxc r g b - minc r g b) + 2
  else (r - g) / (maxc r g b - minc r g b) + 4

/-- Body of `rgbToHsl` after the `r /= 255; g /= 255; b /= 255` rescaling
(lines 28-42).  Returns `(h, s, l)` with `h ∈ [0,360)`, `s, l ∈ [0,100]`. -/
def rgbToHslAux (r g b : ℚ) : ℚ × ℚ × ℚ :=
  if maxc r g b = minc r g b then (0, 0, lig r g b * 100)
  else (hue6 r g b / 6 * 360, sat r g b * 100, lig r g b * 100)

/-- `rgbToHsl(r, g, b)` (lines 26-43): rescale to `[0,1]`, then convert. -/
def rgbToHsl (r g b : ℚ) : ℚ × ℚ × ℚ := rgbToHslAux (r / 255) (g / 255) (b / 255)

/-- The inner helper `hue2rgb(p, q, t)` of `hslToRgb` (lines 47-54), with the
two sequential normalisation steps `if (t < 0) t += 1; if (t > 1) t -= 1`. -/
def hue2rgb (p q t : ℚ) : ℚ :=
  let t1 := if t < 0 then t + 1 else t
  let t2 := if t1 > 1 then t1 - 1 else t1
  if t2 < 1/6 then p + (q - p) * 6 * t2
  else if t2 < 1/2 then q
  else if t2 < 2/3 then p + (q - p) * (2/3 - t2) * 6
  else p

/-- The three normalized channels computed by `hslToRgb` before rounding
(lines 45-63): divide the inputs by 360/100/100, then either the achromatic
branch `r = g = b = l` or the chromatic branch through `hue2rgb`. -/
def hslChannels (h s l : ℚ) : ℚ × ℚ × ℚ :=
  let h2 := h / 360
  let s2 := s / 100
  let l2 := l / 100
  if s2 = 0 then (l2, l2, l2)
  else
    let q := if l2 < 1/2 then l2 * (1 + s2) else l2 + s2 - l2 * s2
    let p := 2 * l2 - q
    (hue2rgb p q (h2 + 1/3), hue2rgb p q h2, hue2rgb p q (h2 - 1/3))

/-- `hslToRgb(h, s, l)` (lines 45-65): the normalized channels, each scaled by
255 and rounded with `Math.round`. -/
def hslToRgb (h s l : ℚ) : ℤ × ℤ × ℤ :=
  (round ((hslChannels h s l).1 * 255),
   round ((hslChannels h s l).2.1 * 255),
   round ((hslChannels h s l).2.2 * 255))

/-- Lowercase hex digit, as produced by JS `Number.prototype.toString(16)`. -/
def hexDigit (n : ℕ) : Char :=
  if n < 10 then Char.ofNat (48 + n) else Char.ofNat (87 + n)

/-- Two lowercase hex digits of a byte, `c.toString(16).padStart(2, "0")`
(line 22); faithful for `n ≤ 255`. -/
def byteHex (n : ℕ) : String := String.mk [hexDigit (n / 16 % 16), hexDigit (n % 16)]

/-- `toHex(r, g, b)` (lines 21-22): `#rrggbb` lowercase. -/
def toHex (p : ℕ × ℕ × ℕ) : String := "#" ++ byteHex p.1 ++ byteHex p.2.1 ++ byteHex p.2.2

/-- JS `a % b` for nonnegative `a` and positive `b` (used on hue degrees,
lines 69, 76-77). -/
def fmod (a b : ℚ) : ℚ := a - b * (⌊a / b⌋ : ℤ)

/-- `complementaryColor(rgb)` (lines 67-72): rotate hue by 180 degrees,
convert back, format as hex. -/
def complementaryColor (p : ℕ × ℕ × ℕ) : String :=
  let hsl := rgbToHsl p.1 p.2.1 p.2.2
  let hc := fmod (hsl.1 + 180) 360
  let rgb := hslToRgb hc hsl.2.1 hsl.2.2
  toHex (rgb.1.toNat, rgb.2.1.toNat, rgb.2.2.toNat)

/-- `analogousColors(rgb)` (lines 74-81): rotate hue by +30 and +330 degrees. -/
def analogousColors (p : ℕ × ℕ × ℕ) : String × String :=
  let hsl := rgbToHsl p.1 p.2.1 p.2.2
  let a1 := fmod (hsl.1 + 30) 360
  let a2 := fmod (hsl.1 + 330) 360
  let c1 := hslToRgb a1 hsl.2.1 hsl.2.2
  let c2 := hslToRgb a2 hsl.2.1 hsl.2.2
  (toHex (c1.1.toNat, c1.2.1.toNat, c1.2.2.toNat),
   toHex (c2.1.toNat, c2.2.1.toNat, c2.2.2.toNat))

/-! ## Region Statistics Engine (App.jsx lines 84-155)

`computeStats(imageData, mask)` makes one pass over all `(y, x)` pixel
coordinates in row-major order, skipping a pixel when a mask is present and
its alpha sample at `idx + 3` is falsy (`0`, or out of range).  The single
accumulating loop is embedded as list operations over the row-major list of
included pixels, which produce the same sums, min/max folds, counters and
insertion-ordered bucket table as the loop. -/

/-- A raster image: width, height, and the dense row-major RGBA byte buffer
(`imageData.data`). -/
structure ImageData where
  width : ℕ
  height : ℕ
  data : List ℕ
deriving DecidableEq

/-- Well-formed raster buffer: one 4-byte sample per pixel, each byte in
`[0, 255]` (a JS `Uint8ClampedArray` of an `ImageData` always satisfies this). -/
def ImageData.WF (img : ImageData) : Prop :=
  img.data.length = 4 * img.width * img.height ∧ ∀ v ∈ img.data, v ≤ 255

instance (img : ImageData) : Decidable img.WF := by
  unfold ImageData.WF; infer_instance

/-- Row-major pixel coordinates `(y, x)`, `y` outer, `x` inner
(the two nested `for` loops, lines 97-98). -/
def coords (w h : ℕ) : List (ℕ × ℕ) :=
  (List.range h).flatMap fun y => (List.range w).map fun x => (y, x)

/-- Byte offset of pixel `(y, x)`: `idx = (y * width + x) * 4` (line 99). -/
def pxIdx (w : ℕ) (yx : ℕ × ℕ) : ℕ := (yx.1 * w + yx.2) * 4

/-- Mask test for one pixel: `if (useMask && !mask[idx + 3]) continue`
(lines 95, 100).  Absent mask includes everything; reading past the end of a
mask buffer yields JS `undefined`, which is falsy, hence `List.getD _ _ 0`. -/
def maskIncl (mask : Option (List ℕ)) (w : ℕ) (yx : ℕ × ℕ) : Bool :=
  match mask with
  | none => true
  | some m => decide (m.getD (pxIdx w yx + 3) 0 ≠ 0)

/-- The row-major list of `(r, g, b)` samples of the included pixels
(lines 100-101). -/
def includedPixels (img : ImageData) (mask : Option (List ℕ)) : List (ℕ × ℕ × ℕ) :=
  ((coords img.width img.height).filter (maskIncl mask img.width)).map fun yx =>
    (img.data.getD (pxIdx img.width yx) 0,
     img.data.getD (pxIdx img.width yx + 1) 0,
     img.data.getD (pxIdx img.width yx + 2) 0)

/-- Perceptual luma `l = 0.2126 * r + 0.7152 * g + 0.0722 * b` (line 102). -/
def luma (p : ℕ × ℕ × ℕ) : ℚ := 0.2126 * p.1 + 0.7152 * p.2.1 + 0.0722 * p.2.2

/-- Quantization key `qkey(r, g, b) = (r >> 4, g >> 4, b >> 4)` (line 84);
the JS string key `"a,b,c"` is represented by the triple itself (the string
encoding of triples is injective). -/
def qkeyOf (p : ℕ × ℕ × ℕ) : ℕ × ℕ × ℕ := (p.1 / 16, p.2.1 / 16, p.2.2 / 16)

/-- One step of `buckets.set(key, (buckets.get(key) || 0) + 1)` (line 109) on
an insertion-ordered association list (JS `Map` preserves insertion order). -/
def addKey : List ((ℕ × ℕ × ℕ) × ℕ) → (ℕ × ℕ × ℕ) → List ((ℕ × ℕ × ℕ) × ℕ)
  | [], k => [(k, 1)]
  | (k', c) :: t, k => if k = k' then (k', c + 1) :: t else (k', c) :: addKey t k

/-- The bucketed color-frequency table after the pixel loop (lines 93, 108-109),
in insertion order. -/
def statsBuckets (img : ImageData) (mask : Option (List ℕ)) : List ((ℕ × ℕ × ℕ) × ℕ) :=
  (includedPixels img mask).foldl (fun t p => addKey t (qkeyOf p)) []

/-- Center RGB of a bucket: `rq * 16 + 8` per channel (line 121). -/
def bucketCenter (k : ℕ × ℕ × ℕ) : ℕ × ℕ × ℕ := (k.1 * 16 + 8, k.2.1 * 16 + 8, k.2.2 * 16 + 8)

/-- One dominant swatch: representative RGB, hex string, fraction of the
included pixels (line 122; `ratio` in the source). -/
structure Swatch where
  rgb : ℕ × ℕ × ℕ
  hex : String
  frac : ℚ
deriving DecidableEq

/-- Dominant swatches: sort the table by descending count (stably, as JS
`Array.prototype.sort` is), take 5, convert keys to center RGB
(lines 116-123). -/
def topSwatches (img : ImageData) (mask : Option (List ℕ)) : List Swatch :=
  (((statsBuckets img mask).mergeSort fun a b => decide (b.2 ≤ a.2)).take 5).map fun kc =>
    { rgb := bucketCenter kc.1
      hex := toHex (bucketCenter kc.1)
      frac := (kc.2 : ℚ) / ((includedPixels img mask).length : ℚ) }

/-- The luma values of the included pixels, in pixel order. -/
def statsLumas (img : ImageData) (mask : Option (List ℕ)) : List ℚ :=
  (includedPixels img mask).map luma

/-- Running minimum of luma, seeded with `minL = 255` (lines 91, 104). -/
def statsMinL (img : ImageData) (mask : Option (List ℕ)) : ℚ :=
  (statsLumas img mask).foldl min 255

/-- Running maximum of luma, seeded with `maxL = 0` (lines 91, 105). -/
def statsMaxL (img : ImageData) (mask : Option (List ℕ)) : ℚ :=
  (statsLumas img mask).foldl max 0

/-- The `veryDark` counter: pixels with `l < 30` (lines 92, 106). -/
def veryDarkCount (img : ImageData) (mask : Option (List ℕ)) : ℕ :=
  ((statsLumas img mask).filter fun l => decide (l < 30)).length

/-- The `veryLight` counter: pixels with `l > 225` (lines 92, 107). -/
def veryLightCount (img : ImageData) (mask : Option (List ℕ)) : ℕ :=
  ((statsLumas img mask).filter fun l => decide (l > 225)).length

/-- Channel averages `sumR / pxCount` etc., unrounded (lines 125-127). -/
def avgChannels (img : ImageData) (mask : Option (List ℕ)) : ℚ × ℚ × ℚ :=
  let ps := includedPixels img mask
  ((((ps.map fun p => p.1).sum : ℕ) : ℚ) / (ps.length : ℚ),
   (((ps.map fun p => p.2.1).sum : ℕ) : ℚ) / (ps.length : ℚ),
   (((ps.map fun p => p.2.2).sum : ℕ) : ℚ) / (ps.length : ℚ))

/-- The profile built for a non-empty region (lines 146-154). -/
structure RegionProfile where
  pxCount : ℕ
  avgHex : String
  dominant : List Swatch
  contrast : ℤ
  exposureHint : String
  vibe : String
  complementary : String
  analogous : String × String
deriving DecidableEq

/-- The `return { ... }` object of `computeStats` for a non-empty region
(lines 116-154): average hex (rounded per channel), dominant swatches,
rounded contrast `Math.round(maxL - minL)`, the exposure ternary
(lines 131-134), the vibe if/else-if chain (lines 136-140, note it tests the
unrounded `contrast`), and color suggestions from the most dominant swatch
with the `{r:120,g:120,b:120}` fallback (lines 142-144). -/
def profileOf (img : ImageData) (mask : Option (List ℕ)) : RegionProfile :=
  let ps := includedPixels img mask
  let veryDark := veryDarkCount img mask
  let veryLight := veryLightCount img mask
  let avg := avgChannels img mask
  let contrastRaw := statsMaxL img mask - statsMinL img mask
  let top := topSwatches img mask
  let hsl := rgbToHsl avg.1 avg.2.1 avg.2.2
  let base := (top.head?.map fun s => s.rgb).getD (120, 120, 120)
  { pxCount := ps.length
    avgHex := toHex ((round avg.1).toNat, (round avg.2.1).toNat, (round avg.2.2).toNat)
    dominant := top
    contrast := round contrastRaw
    exposureHint :=
      if (veryLight : ℚ) / (ps.length : ℚ) > 0.25 then "slightly over-exposed"
      else if (veryDark : ℚ) / (ps.length : ℚ) > 0.25 then "slightly under-exposed"
      else "balanced exposure"
    vibe :=
      if hsl.2.1 > 45 ∧ hsl.2.2 > 60 then "vibrant & playful"
      else if hsl.2.1 < 20 ∧ contrastRaw > 140 then "classic & sharp"
      else if hsl.2.2 < 35 then "moody & bold"
      else "clean & minimal"
    complementary := complementaryColor base
    analogous := analogousColors base }

/-- `computeStats(imageData, mask)` (lines 87-155): `null` (i.e. `none`) when
zero pixels were included (line 114), the profile otherwise. -/
def computeStats (img : ImageData) (mask : Option (List ℕ)) : Option RegionProfile :=
  if (includedPixels img mask).length = 0 then none else some (profileOf img mask)

/-! ## Segmentation Partitioner (App.jsx lines 285-325)

From the external model's per-pixel flags (`1` = person), `analyze` builds an
RGBA mask whose alpha is 255 on person pixels, computes the bounding box of
the mask, and splits it at `midY = Math.floor((minY + maxY) / 2)` into a top
and a bottom mask; both are `null` when no pixel is foreground. -/

/-- Foreground flag of linear pixel `i`: `segmentation.data[i] === 1`
(line 288); out-of-range reads are `undefined`, never `1`. -/
def isFg (seg : List ℕ) (i : ℕ) : Bool := seg.getD i 0 == 1

/-- Coordinates of foreground pixels, in the scan order of the bbox loop
(lines 296-308). -/
def fgCoords (w h : ℕ) (seg : List ℕ) : List (ℕ × ℕ) :=
  (coords w h).filter fun yx => isFg seg (yx.1 * w + yx.2)

/-- `minY` of the person bounding box, seeded with `h` (line 296). -/
def bboxMinY (w h : ℕ) (seg : List ℕ) : ℕ :=
  ((fgCoords w h seg).map fun yx => yx.1).foldl min h

/-- `maxY` of the person bounding box, seeded with `0` (line 296). -/
def bboxMaxY (w h : ℕ) (seg : List ℕ) : ℕ :=
  ((fgCoords w h seg).map fun yx => yx.1).foldl max 0

/-- `midY = Math.floor((minY + maxY) / 2)` (line 313). -/
def midY (w h : ℕ) (seg : List ℕ) : ℕ := (bboxMinY w h seg + bboxMaxY w h seg) / 2

/-- The top/bottom sub-masks (RGBA buffers; lines 311-325): `null` when no
pixel is foreground, otherwise alpha 255 exactly on foreground pixels at rows
`y ≤ midY` (top) resp. `y > midY` (bottom). -/
def splitMasks (w h : ℕ) (seg : List ℕ) : Option (List ℕ × List ℕ) :=
  if fgCoords w h seg = [] then none
  else
    some
      ((List.range (w * h)).flatMap fun i =>
         [0, 0, 0, if isFg seg i && decide (i / w ≤ midY w h seg) then 255 else 0],
       (List.range (w * h)).flatMap fun i =>
         [0, 0, 0, if isFg seg i && decide (midY w h seg < i / w) then 255 else 0])

/-! ## Finding Filter (App.jsx lines 350-357) -/

/-- A raw detection from the external object detector:
`{class, score, bbox}`; `class` is embedded as `cls` (a Lean keyword). -/
structure Detection where
  cls : String
  score : ℚ
  bbox : List ℚ
deriving DecidableEq

/-- A surviving finding `{class, score}` (line 357). -/
structure Finding where
  cls : String
  score : ℚ
deriving DecidableEq

/-- The accessory whitelist `interesting` (lines 351-354). -/
def interesting : List String :=
  ["tie", "backpack", "handbag", "umbrella", "suitcase",
   "sports ball", "skateboard", "bottle", "book", "cell phone", "laptop"]

/-- `cocoFindings` (lines 355-357): keep detections whose class is
whitelisted and whose score exceeds 0.45, in detector order. -/
def cocoFindings (dets : List Detection) : List Finding :=
  (dets.filter fun d => interesting.contains d.cls && decide (d.score > 0.45)).map
    fun d => { cls := d.cls, score := d.score }

/-! ## Report Synthesizer (App.jsx lines 157-198, 329-342)

`buildMarkdown` substitutes the computed statistics into a fixed Markdown
template.  It reads the global profile's fields unconditionally
(`globalStats.vibe`, line 165, etc.), so a `null` global profile would throw a
`TypeError`; that failure is embedded as the `none` result.  The upper/lower
profiles are read with optional chaining and a `"-"` placeholder
(lines 158, 177-182).  `analyze` (lines 330-342) attaches a whole-image
`brightness` (rounded mean luma) and overwrites `contrast` on the global
profile; `brightness` is embedded as an explicit argument. -/

/-- `domToStr` (line 158): `"`hex`" (pct%)` per swatch joined by `", "`, with
`"-"` when the profile is absent or the join is the empty string. -/
def domToStr (st : Option RegionProfile) : String :=
  match st with
  | none => "-"
  | some p =>
    match p.dominant with
    | [] => "-"
    | ds => String.intercalate ", "
        (ds.map fun c => "`" ++ c.hex ++ "` (" ++ toString (round (c.frac * 100)) ++ "%)")

/-- The accessories block (lines 160-162). -/
def accessoriesStr (findings : List Finding) : String :=
  match findings with
  | [] => "- None detected (try clearer photo or different angle)"
  | fs => String.intercalate "\n"
      (fs.map fun d => "- **" ++ d.cls ++ "** (" ++ toString (round (d.score * 100)) ++ "%)")

/-- ASCII lowercasing of one character, modelling the `i` flag of the
occasion regexes (lines 192, 194); the keywords are ASCII-only. -/
def lowerChar (c : Char) : Char :=
  if 65 ≤ c.toNat ∧ c.toNat ≤ 90 then Char.ofNat (c.toNat + 32) else c

/-- Whether `pat` occurs as a contiguous substring of `s`. -/
def containsSub (pat : List Char) : List Char → Bool
  | [] => pat.isEmpty
  | c :: rest => pat.isPrefixOf (c :: rest) || containsSub pat rest

/-- Case-insensitive keyword test: `/kw1|kw2|…/i.test(s)` for lowercase ASCII
keywords. -/
def hasKeyword (kws : List String) (s : String) : Bool :=
  kws.any fun k => containsSub k.data (s.data.map lowerChar)

/-- The formal-occasion keywords `/interview|office|formal|presentation/i`
(line 192). -/
def formalKws : List String := ["interview", "office", "formal", "presentation"]

/-- The casual-occasion keywords `/date|party|casual|hangout/i` (line 194). -/
def casualKws : List String := ["date", "party", "casual", "hangout"]

/-- The Occasion Fit verdict (lines 192-196): formal keywords are tested
first and judged by `globalStats.contrast > 110`; otherwise casual keywords
are judged by `globalStats.brightness > 90`; otherwise the generic message. -/
def occasionFit (userPrompt : String) (contrast brightness : ℤ) : String :=
  if hasKeyword formalKws userPrompt then
    (if contrast > 110 then "Good for formal/semi-formal."
     else "Might need sharper contrast for formal.")
  else if hasKeyword casualKws userPrompt then
    (if brightness > 90 then "Great for casual/social settings."
     else "Add a lighter piece for approachability.")
  else "Versatile — tweak with layers/accessories."

/-- Contrast line of a garment subsection: `topStats?.contrast ?? "-"`
(lines 177, 181). -/
def optContrast (st : Option RegionProfile) : String :=
  match st with
  | none => "-"
  | some p => toString p.contrast

/-- Vibe line of a garment subsection: `topStats?.vibe ?? "-"`
(lines 178, 182). -/
def optVibe (st : Option RegionProfile) : String :=
  match st with
  | none => "-"
  | some p => p.vibe

/-- `buildMarkdown` (lines 157-198).  A `null` global profile makes the
template's unconditional field reads throw, embedded as `none`; otherwise the
full Markdown document. -/
def buildMarkdown (globalStats : Option RegionProfile) (brightness : ℤ)
    (topStats bottomStats : Option RegionProfile) (findings : List Finding)
    (userPrompt : String) : Option String :=
  match globalStats with
  | none => none
  | some g =>
    some
      ("### 🌟 Overall Vibe\n" ++ g.vibe ++ ". Context: *" ++ userPrompt ++
       "*. Exposure looks **" ++ g.exposureHint ++ "**.\n\n" ++
       "### 🎨 Color & Palette (Whole Look)\n- Average tone: **" ++ g.avgHex ++
       "**\n- Dominant swatches: " ++ domToStr (some g) ++
       "\n- Try these pops/accents:\n  - **Complementary:** " ++ g.complementary ++
       "\n  - **Analogous:** " ++ g.analogous.1 ++ ", " ++ g.analogous.2 ++
       "\n\n### 🧥 Garment Analysis (from segmentation)\n- **Top (upper body):**\n  - Dominants: " ++
       domToStr topStats ++ "\n  - Contrast: " ++ optContrast topStats ++
       "\n  - Vibe: " ++ optVibe topStats ++
       "\n- **Bottom (lower body):**\n  - Dominants: " ++ domToStr bottomStats ++
       "\n  - Contrast: " ++ optContrast bottomStats ++
       "\n  - Vibe: " ++ optVibe bottomStats ++
       "\n\n**Styling hints:**\n- If top and bottom look too similar, introduce micro-contrast with belt/shoes.\n- Consider accent in " ++
       g.complementary ++ " to balance the palette.\n\n### 👜 Detected Accessories (COCO-SSD)\n" ++
       accessoriesStr findings ++ "\n\n### ✅ Occasion Fit\n" ++
       occasionFit userPrompt g.contrast brightness ++ "\n")

/-- The whole-image mean luma attached by `analyze` as
`globalStats.brightness = Math.round(sumL / count)` (lines 333-340); the loop
strides the buffer in steps of 4, which for a well-formed buffer visits
exactly the `width * height` row-major pixels, i.e. `includedPixels img none`. -/
def globalBrightness (img : ImageData) : ℤ :=
  round (((includedPixels img none).map luma).sum / ((includedPixels img none).length : ℚ))

/-! ## Concrete inputs used in examples and counterexamples -/

/-- A 1-by-1 all-black image. -/
def blackImg : ImageData := { width := 1, height := 1, data := [0, 0, 0, 255] }

/-- A 1-by-1 all-white image. -/
def whiteImg : ImageData := { width := 1, height := 1, data := [255, 255, 255, 255] }

/-- A 1-by-1 image with a malformed buffer: 5 bytes, not a multiple of 4 and
inconsistent with `4 * width * height = 4`. -/
def malformedImg : ImageData := { width := 1, height := 1, data := [10, 20, 30, 255, 99] }

/-- A 1-column, 51-row segmentation flag array with foreground at rows
10, 30, 31 and 50, so the person bounding box spans rows 10-50. -/
def segEx : List ℕ :=
  (List.range 51).map fun y => if y = 10 ∨ y = 30 ∨ y = 31 ∨ y = 50 then 1 else 0

/-! ## General lemmas about the embedding -/

theorem length_includedPixels_eq_countP (img : ImageData) (mask : Option (List ℕ)) :
    (includedPixels img mask).length =
      (coords img.width img.height).countP (maskIncl mask img.width) := by
  rw [List.countP_eq_length_filter, includedPixels, List.length_map]

theorem mem_coords {w h : ℕ} {yx : ℕ × ℕ} :
    yx ∈ coords w h ↔ yx.1 < h ∧ yx.2 < w := by
  rcases yx with ⟨y, x⟩
  simp only [coords, List.mem_flatMap, List.mem_map, List.mem_range]
  constructor
  · rintro ⟨y0, hy0, x0, hx0, he⟩
    cases he
    exact ⟨hy0, hx0⟩
  · rintro ⟨hy, hx⟩
    exact ⟨y, hy, x, hx, rfl⟩

theorem linIdx_lt {w h y x : ℕ} (hy : y < h) (hx : x < w) : y * w + x < w * h := by
  calc y * w + x < y * w + w := by omega
  _ = (y + 1) * w := by ring
  _ ≤ h * w := Nat.mul_le_mul_right w (by omega)
  _ = w * h := Nat.mul_comm h w

theorem pxIdx_lt {w h : ℕ} {yx : ℕ × ℕ} (hy : yx.1 < h) (hx : yx.2 < w) :
    pxIdx w yx + 3 < 4 * w * h := by
  rcases yx with ⟨y, x⟩
  have hyx : y * w + x < w * h := linIdx_lt hy hx
  have h4 : 4 * w * h = 4 * (w * h) := by ring
  simp only [pxIdx]
  omega

theorem getD_take_of_lt (l : List ℕ) (n i d : ℕ) (h : i < n) :
    (l.take n).getD i d = l.getD i d := by
  simp [List.getD_eq_getElem?_getD, List.getElem?_take, h]

/-! ## C2: absent result iff zero included pixels -/

/-- C2: `computeStats` returns an absent result (`null`) if and only if the
number of included pixels — coordinates passing the mask test — is zero; an
empty region is not an error (it is a regular `none` value, and a non-empty
region always yields `some` profile). -/
theorem computeStats_none_iff_no_pixels (img : ImageData) (mask : Option (List ℕ)) :
    computeStats img mask = none ↔
      (coords img.width img.height).countP (maskIncl mask img.width) = 0 := by
  rw [← length_includedPixels_eq_countP, computeStats]
  by_cases h : (includedPixels img mask).length = 0
  · simp [h]
  · simp [h]

/-! ## C3: malformed buffers are processed silently, not rejected -/

theorem includedPixels_take (w h : ℕ) (data : List ℕ) (mask : Option (List ℕ)) :
    includedPixels ⟨w, h, data.take (4 * w * h)⟩ mask = includedPixels ⟨w, h, data⟩ mask := by
  unfold includedPixels
  dsimp only
  apply List.map_congr_left
  intro yx hyx
  have hm := (List.mem_filter.mp hyx).1
  have hb := mem_coords.mp hm
  have hlt := @pxIdx_lt w h yx hb.1 hb.2
  have h0 : pxIdx w yx < 4 * w * h := by omega
  have h1 : pxIdx w yx + 1 < 4 * w * h := by omega
  have h2 : pxIdx w yx + 2 < 4 * w * h := by omega
  rw [getD_take_of_lt _ _ _ _ h0, getD_take_of_lt _ _ _ _ h1, getD_take_of_lt _ _ _ _ h2]

theorem computeStats_congr {img img2 : ImageData} (mask : Option (List ℕ))
    (h : includedPixels img mask = includedPixels img2 mask) :
    computeStats img mask = computeStats img2 mask := by
  unfold computeStats profileOf veryDarkCount veryLightCount avgChannels topSwatches
    statsBuckets statsMinL statsMaxL statsLumas
  rw [h]

/-- C3 counterexample: on a malformed buffer (length 5: not a multiple of 4,
inconsistent with `4 * width * height = 4`) `computeStats` does not fail with
any `InvalidImageData` condition — the embedding of `computeStats` is total
with no error channel (the source has no validation or `throw`), and on this
input it silently returns an ordinary profile. -/
theorem computeStats_malformed_succeeds :
    malformedImg.data.length % 4 = 1 ∧
    malformedImg.data.length ≠ 4 * malformedImg.width * malformedImg.height ∧
    (computeStats malformedImg none).isSome = true := by
  refine ⟨by decide, by decide, ?_⟩
  rw [computeStats]
  have h : (includedPixels malformedImg none).length = 1 := by decide
  rw [if_neg (by omega)]
  rfl

/-- C3 (amended): the core performs no buffer validation.  `computeStats`
never signals an error: it reads exactly the `4 * width * height` addressed
bytes, so any bytes beyond them are silently ignored (truncation), and a
malformed oversized buffer produces the same ordinary result as its
truncation. -/
theorem computeStats_ignores_excess_bytes (w h : ℕ) (data : List ℕ)
    (mask : Option (List ℕ)) :
    computeStats ⟨w, h, data⟩ mask = computeStats ⟨w, h, data.take (4 * w * h)⟩ mask :=
  (computeStats_congr mask (includedPixels_take w h data mask)).symm

/-! ## C7: the Finding Filter -/

/-- C7: the Finding Filter outputs exactly the ordered subsequence of
detections whose label is whitelisted and whose score is strictly greater
than 0.45: it equals the filter of the detection list by that predicate
(projected to label/score), it is a sublist of the projected detection list
(the detector's original ordering is preserved), `{class:"tie", score:0.9}`
passes while `{class:"tie", score:0.3}` and `{class:"car", score:0.95}` are
excluded, and an empty output is an ordinary (non-error) result. -/
theorem cocoFindings_spec :
    (∀ dets : List Detection,
      cocoFindings dets =
        (dets.filter fun d => decide (d.cls ∈ interesting) && decide (d.score > 0.45)).map
          fun d => { cls := d.cls, score := d.score }) ∧
    (∀ dets : List Detection,
      (cocoFindings dets).Sublist (dets.map fun d => { cls := d.cls, score := d.score })) ∧
    cocoFindings [⟨"tie", 0.9, []⟩, ⟨"tie", 0.3, []⟩, ⟨"car", 0.95, []⟩] =
      [{ cls := "tie", score := 0.9 }] ∧
    cocoFindings [⟨"tie", 0.3, []⟩, ⟨"car", 0.95, []⟩] = [] := by
  have hfilter : ∀ dets : List Detection,
      cocoFindings dets =
        (dets.filter fun d => decide (d.cls ∈ interesting) && decide (d.score > 0.45)).map
          fun d => { cls := d.cls, score := d.score } := by
    intro dets
    unfold cocoFindings
    congr 1
    apply List.filter_congr
    intro d _
    simp [List.contains]
  have h1 : decide (("tie" : String) ∈ interesting) = true := by decide
  have h2 : decide (("car" : String) ∈ interesting) = false := by decide
  have h3 : decide ((0.9 : ℚ) > 0.45) = true := by
    simp only [decide_eq_true_eq]; norm_num
  have h4 : decide ((0.3 : ℚ) > 0.45) = false := by
    simp only [decide_eq_false_iff_not]; norm_num
  refine ⟨hfilter, ?_, ?_, ?_⟩
  · intro dets
    rw [hfilter]
    exact List.Sublist.map _ (List.filter_sublist dets)
  · rw [hfilter]
    simp [List.filter_cons, h1, h2, h3, h4]
  · rw [hfilter]
    simp [List.filter_cons, h1, h2, h4]

/-! ## C6: the Segmentation Partitioner -/

theorem flat4_length (f : ℕ → ℕ) (n : ℕ) :
    ((List.range n).flatMap fun j => [0, 0, 0, f j]).length = 4 * n := by
  induction n with
  | zero => rfl
  | succ n ih =>
    rw [List.range_succ, List.flatMap_append, List.length_append, ih]
    simp
    omega

theorem flat4_getD (f : ℕ → ℕ) (n i : ℕ) (h : i < n) :
    ((List.range n).flatMap fun j => [0, 0, 0, f j]).getD (i * 4 + 3) 0 = f i := by
  induction n with
  | zero => omega
  | succ n ih =>
    rw [List.range_succ, List.flatMap_append]
    by_cases hi : i < n
    · rw [List.getD_append]
      · exact ih hi
      · rw [flat4_length]; omega
    · have hin : i = n := by omega
      subst hin
      rw [List.getD_append_right _ _ _ _ (by rw [flat4_length]; omega)]
      rw [flat4_length]
      have h3 : i * 4 + 3 - 4 * i = 3 := by omega
      rw [h3]
      rfl

theorem decide_ite_ne (c : Bool) :
    decide ((if c = true then (255 : ℕ) else 0) ≠ 0) = c := by
  cases c <;> simp

theorem linIdx_div {w y x : ℕ} (hx : x < w) : (y * w + x) / w = y := by
  have hw : 0 < w := by omega
  have he : y * w + x = x + w * y := by ring
  rw [he, Nat.add_mul_div_left x y hw, Nat.div_eq_of_lt hx]
  omega

/-- C6: the Segmentation Partitioner yields absent sub-masks iff no pixel is
foreground; otherwise, with `midY = ⌊(minY + maxY) / 2⌋` of the foreground
bounding box, a pixel is included in the upper sub-mask iff it is foreground
and its row is at most `midY`, and in the lower sub-mask iff it is foreground
and its row exceeds `midY`.  On the example mask with bounding-box rows 10-50,
`midY = 30`, the foreground pixel at row 30 lands in the upper sub-mask and
the one at row 31 in the lower sub-mask. -/
theorem partitioner_spec :
    (∀ w h seg, splitMasks w h seg = none ↔ fgCoords w h seg = []) ∧
    (∀ w h seg tm bm y x, splitMasks w h seg = some (tm, bm) → y < h → x < w →
      ((maskIncl (some tm) w (y, x) = true ↔
          (isFg seg (y * w + x) = true ∧ y ≤ midY w h seg)) ∧
       (maskIncl (some bm) w (y, x) = true ↔
          (isFg seg (y * w + x) = true ∧ midY w h seg < y)))) ∧
    (bboxMinY 1 51 segEx = 10 ∧ bboxMaxY 1 51 segEx = 50 ∧ midY 1 51 segEx = 30 ∧
      (splitMasks 1 51 segEx).map (fun p =>
        (maskIncl (some p.1) 1 (30, 0), maskIncl (some p.2) 1 (31, 0),
         maskIncl (some p.1) 1 (31, 0), maskIncl (some p.2) 1 (30, 0))) =
        some (true, true, false, false)) := by
  refine ⟨?_, ?_, by decide, by decide, by decide, by decide⟩
  · intro w h seg
    rw [splitMasks]
    by_cases hfg : fgCoords w h seg = []
    · simp [hfg]
    · simp [hfg]
  · intro w h seg tm bm y x hsm hy hx
    rw [splitMasks] at hsm
    by_cases hfg : fgCoords w h seg = []
    · rw [if_pos hfg] at hsm; cases hsm
    · rw [if_neg hfg, Option.some.injEq, Prod.mk.injEq] at hsm
      obtain ⟨htm, hbm⟩ := hsm
      subst htm
      subst hbm
      have hidx : y * w + x < w * h := linIdx_lt hy hx
      constructor
      · show decide _ = true ↔ _
        have hg := flat4_getD
          (fun i => if isFg seg i && decide (i / w ≤ midY w h seg) then 255 else 0)
          (w * h) (y * w + x) hidx
        have hpx : pxIdx w (y, x) + 3 = (y * w + x) * 4 + 3 := rfl
        rw [hpx, hg, decide_ite_ne, Bool.and_eq_true, decide_eq_true_eq, linIdx_div hx]
      · show decide _ = true ↔ _
        have hg := flat4_getD
          (fun i => if isFg seg i && decide (midY w h seg < i / w) then 255 else 0)
          (w * h) (y * w + x) hidx
        have hpx : pxIdx w (y, x) + 3 = (y * w + x) * 4 + 3 := rfl
        rw [hpx, hg, decide_ite_ne, Bool.and_eq_true, decide_eq_true_eq, linIdx_div hx]

/-- Witness for C6 at the concrete input `w = h = 1`, `seg = [1]`. -/
theorem partitioner_spec_witness :
    splitMasks 1 1 [1] = some ([0, 0, 0, 255], [0, 0, 0, 0]) ∧ 0 < 1 ∧
    ((maskIncl (some [0, 0, 0, 255]) 1 (0, 0) = true ↔
        (isFg [1] (0 * 1 + 0) = true ∧ 0 ≤ midY 1 1 [1])) ∧
     (maskIncl (some [0, 0, 0, 0]) 1 (0, 0) = true ↔
        (isFg [1] (0 * 1 + 0) = true ∧ midY 1 1 [1] < 0))) :=
  ⟨by decide, by decide,
   partitioner_spec.2.1 1 1 [1] [0, 0, 0, 255] [0, 0, 0, 0] 0 0 (by decide)
     (by decide) (by decide)⟩

/-! ## C10: the global profile is always present -/

theorem sum_map_const {α : Type} (l : List α) (c : ℕ) :
    (l.map fun _ => c).sum = l.length * c := by
  induction l with
  | nil => simp
  | cons a t ih => simp [ih]; ring

theorem coords_length (w h : ℕ) : (coords w h).length = h * w := by
  rw [coords, List.length_flatMap]
  have hrep : (List.map (List.length ∘ fun y => (List.range w).map fun x => (y, x))
      (List.range h)) = List.replicate h w := by
    have hfun : (List.length ∘ fun y : ℕ => (List.range w).map fun x => (y, x)) =
        fun _ : ℕ => w := by
      funext y; simp
    rw [hfun]
    simp
  rw [hrep, List.sum_replicate, smul_eq_mul]

theorem includedPixels_none_length (img : ImageData) :
    (includedPixels img none).length = img.height * img.width := by
  rw [includedPixels, List.length_map]
  have : (coords img.width img.height).filter (maskIncl none img.width) =
      coords img.width img.height :=
    List.filter_eq_self.mpr fun a _ => rfl
  rw [this, coords_length]

theorem computeStats_none_mask (img : ImageData) (hw : 1 ≤ img.width)
    (hh : 1 ≤ img.height) :
    computeStats img none = some (profileOf img none) := by
  rw [computeStats, if_neg]
  rw [includedPixels_none_length]
  have : 1 ≤ img.height * img.width :=
    Nat.one_le_iff_ne_zero.mpr (Nat.mul_ne_zero (by omega) (by omega))
  omega

/-- C10: on any image with positive width and height, running `computeStats`
with no mask includes every pixel (`width * height` of them), so the global
profile is always present; therefore `buildMarkdown`, whose unconditional
reads of the global profile are the only way it can fail, always produces a
document, and only the optional upper/lower sub-profiles fall back to the
`"-"` placeholder. -/
theorem global_profile_always_present :
    (∀ img : ImageData, 1 ≤ img.width → 1 ≤ img.height →
      (includedPixels img none).length = img.height * img.width ∧
      (computeStats img none).isSome = true) ∧
    (∀ (img : ImageData) (brightness : ℤ) (top bottom : Option RegionProfile)
        (finds : List Finding) (ctx : String), 1 ≤ img.width → 1 ≤ img.height →
      (buildMarkdown (computeStats img none) brightness top bottom finds ctx).isSome = true) ∧
    (domToStr none = "-" ∧ optContrast none = "-" ∧ optVibe none = "-") := by
  refine ⟨?_, ?_, rfl, rfl, rfl⟩
  · intro img hw hh
    exact ⟨includedPixels_none_length img, by rw [computeStats_none_mask img hw hh]; rfl⟩
  · intro img brightness top bottom finds ctx hw hh
    rw [computeStats_none_mask img hw hh]
    rfl

/-- Witness for C10 at the concrete 1-by-1 black image. -/
theorem global_profile_always_present_witness :
    1 ≤ blackImg.width ∧ 1 ≤ blackImg.height ∧
    (computeStats blackImg none).isSome = true ∧
    (buildMarkdown (computeStats blackImg none) 0 none none [] "hi").isSome = true :=
  ⟨by decide, by decide,
   (global_profile_always_present.1 blackImg (by decide) (by decide)).2,
   global_profile_always_present.2.1 blackImg 0 none none [] "hi" (by decide) (by decide)⟩

/-! ## C9: the occasion-fit heuristic -/

/-- C9: the Report Synthesizer's occasion-fit verdict is chosen by
case-insensitive keyword matching on the user context: a formal keyword
(`interview|office|formal|presentation`) makes the verdict depend on whether
the global contrast exceeds 110; otherwise a casual keyword
(`date|party|casual|hangout`) makes it depend on whether the global
brightness exceeds 90; otherwise the generic versatile message is emitted.
Context "office interview" gives "Good for formal/semi-formal." at contrast
150 and "Might need sharper contrast for formal." at contrast 80. -/
theorem occasionFit_spec :
    (∀ (s : String) (c b : ℤ), hasKeyword formalKws s = true →
      occasionFit s c b =
        if c > 110 then "Good for formal/semi-formal."
        else "Might need sharper contrast for formal.") ∧
    (∀ (s : String) (c b : ℤ), hasKeyword formalKws s = false →
      hasKeyword casualKws s = true →
      occasionFit s c b =
        if b > 90 then "Great for casual/social settings."
        else "Add a lighter piece for approachability.") ∧
    (∀ (s : String) (c b : ℤ), hasKeyword formalKws s = false →
      hasKeyword casualKws s = false →
      occasionFit s c b = "Versatile — tweak with layers/accessories.") ∧
    occasionFit "office interview" 150 0 = "Good for formal/semi-formal." ∧
    occasionFit "office interview" 80 0 = "Might need sharper contrast for formal." ∧
    hasKeyword formalKws "An OFFICE presentation" = true ∧
    occasionFit "a casual hangout" 0 100 = "Great for casual/social settings." ∧
    occasionFit "wedding" 0 0 = "Versatile — tweak with layers/accessories." := by
  refine ⟨?_, ?_, ?_, by decide, by decide, by decide, by decide, by decide⟩
  · intro s c b hf
    rw [occasionFit, if_pos hf]
  · intro s c b hf hc
    rw [occasionFit, if_neg (by simp [hf]), if_pos hc]
  · intro s c b hf hc
    rw [occasionFit, if_neg (by simp [hf]), if_neg (by simp [hc])]

/-- Witness for C9 at context "office interview" with contrast 150. -/
theorem occasionFit_spec_witness :
    hasKeyword formalKws "office interview" = true ∧
    occasionFit "office interview" 150 0 =
      (if (150 : ℤ) > 110 then "Good for formal/semi-formal."
       else "Might need sharper contrast for formal.") :=
  ⟨by decide, occasionFit_spec.1 "office interview" 150 0 (by decide)⟩

/-! ## C4: the exposure classification -/

theorem veryLightCount_eq_countP (img : ImageData) (mask : Option (List ℕ)) :
    veryLightCount img mask =
      (includedPixels img mask).countP fun p => decide (luma p > 225) := by
  rw [veryLightCount, statsLumas, ← List.countP_eq_length_filter, List.countP_map]
  rfl

theorem veryDarkCount_eq_countP (img : ImageData) (mask : Option (List ℕ)) :
    veryDarkCount img mask =
      (includedPixels img mask).countP fun p => decide (luma p < 30) := by
  rw [veryDarkCount, statsLumas, ← List.countP_eq_length_filter, List.countP_map]
  rfl

/-- C4 counterexample: the three exposure labels produced by the code are
"slightly over-exposed", "slightly under-exposed" and "balanced exposure"
(App.jsx lines 131-134), not "over-exposed"/"under-exposed"/"balanced".  On
the all-white 1-by-1 image the very-light fraction is 1 > 0.25, yet the
classification is not the claimed string "over-exposed". -/
theorem exposure_label_counterexample :
    (computeStats whiteImg none).map (fun p => p.exposureHint) =
      some "slightly over-exposed" ∧
    (computeStats whiteImg none).map (fun p => p.exposureHint) ≠ some "over-exposed" ∧
    ((veryLightCount whiteImg none : ℚ) /
       ((includedPixels whiteImg none).length : ℚ) > 0.25) := by
  have hpx : includedPixels whiteImg none = [(255, 255, 255)] := by decide
  have hl : statsLumas whiteImg none = [255] := by
    rw [statsLumas, hpx]
    norm_num [luma]
  have hvl : veryLightCount whiteImg none = 1 := by
    rw [veryLightCount, hl]
    norm_num [List.filter]
  have hvd : veryDarkCount whiteImg none = 0 := by
    rw [veryDarkCount, hl]
    norm_num [List.filter]
  have hcs : computeStats whiteImg none = some (profileOf whiteImg none) := by
    rw [computeStats, if_neg (by decide)]
  have hexp : (profileOf whiteImg none).exposureHint = "slightly over-exposed" := by
    show (if (veryLightCount whiteImg none : ℚ) /
            ((includedPixels whiteImg none).length : ℚ) > 0.25
          then "slightly over-exposed"
          else if (veryDarkCount whiteImg none : ℚ) /
            ((includedPixels whiteImg none).length : ℚ) > 0.25
          then "slightly under-exposed" else "balanced exposure") = _
    rw [if_pos]
    rw [hvl, hpx]
    norm_num
  refine ⟨by rw [hcs]; simp [hexp], ?_, by rw [hvl, hpx]; norm_num⟩
  rw [hcs]
  simp [hexp]

/-- C4 (amended): the classification labels are the code's
"slightly over-exposed" / "slightly under-exposed" / "balanced exposure";
with those labels the claim holds: for every non-empty region the exposure
classification is the first match of very-light fraction > 0.25
(luma > 225), then very-dark fraction > 0.25 (luma < 30), then balanced,
with luma `0.2126 R + 0.7152 G + 0.0722 B`. -/
theorem exposure_spec (img : ImageData) (mask : Option (List ℕ))
    (hne : (includedPixels img mask).length ≠ 0) :
    computeStats img mask = some (profileOf img mask) ∧
    (profileOf img mask).exposureHint =
      (if ((includedPixels img mask).countP (fun p => decide (luma p > 225)) : ℚ) /
            ((includedPixels img mask).length : ℚ) > 0.25
       then "slightly over-exposed"
       else if ((includedPixels img mask).countP (fun p => decide (luma p < 30)) : ℚ) /
            ((includedPixels img mask).length : ℚ) > 0.25
       then "slightly under-exposed"
       else "balanced exposure") := by
  refine ⟨by rw [computeStats, if_neg hne], ?_⟩
  show (if (veryLightCount img mask : ℚ) /
          ((includedPixels img mask).length : ℚ) > 0.25
        then "slightly over-exposed"
        else if (veryDarkCount img mask : ℚ) /
          ((includedPixels img mask).length : ℚ) > 0.25
        then "slightly under-exposed" else "balanced exposure") = _
  rw [veryLightCount_eq_countP, veryDarkCount_eq_countP]

/-- Witness for the amended C4 at the all-white 1-by-1 image. -/
theorem exposure_spec_witness :
    (includedPixels whiteImg none).length ≠ 0 ∧
    computeStats whiteImg none = some (profileOf whiteImg none) :=
  ⟨by decide, (exposure_spec whiteImg none (by decide)).1⟩

/-! ## C5: the vibe classification -/

/-- C5: for every non-empty region the vibe is decided in precedence order
over the average color's HSL saturation `avgS` and lightness `avgL` and the
(unrounded) contrast: "vibrant & playful" if `avgS > 45 ∧ avgL > 60`, else
"classic & sharp" if `avgS < 20 ∧ contrast > 140`, else "moody & bold" if
`avgL < 35`, else "clean & minimal"; and the all-black image yields average
color `#000000`, contrast `0` and vibe "moody & bold". -/
theorem vibe_spec :
    (∀ (img : ImageData) (mask : Option (List ℕ)),
      (includedPixels img mask).length ≠ 0 →
      computeStats img mask = some (profileOf img mask) ∧
      (profileOf img mask).vibe =
        (if (rgbToHsl (avgChannels img mask).1 (avgChannels img mask).2.1
              (avgChannels img mask).2.2).2.1 > 45 ∧
            (rgbToHsl (avgChannels img mask).1 (avgChannels img mask).2.1
              (avgChannels img mask).2.2).2.2 > 60 then "vibrant & playful"
         else if (rgbToHsl (avgChannels img mask).1 (avgChannels img mask).2.1
              (avgChannels img mask).2.2).2.1 < 20 ∧
            statsMaxL img mask - statsMinL img mask > 140 then "classic & sharp"
         else if (rgbToHsl (avgChannels img mask).1 (avgChannels img mask).2.1
              (avgChannels img mask).2.2).2.2 < 35 then "moody & bold"
         else "clean & minimal")) ∧
    (computeStats blackImg none).map (fun p => (p.avgHex, p.contrast, p.vibe)) =
      some ("#000000", 0, "moody & bold") := by
  constructor
  · intro img mask hne
    exact ⟨by rw [computeStats, if_neg hne], rfl⟩
  · have hpx : includedPixels blackImg none = [(0, 0, 0)] := by decide
    have hcs : computeStats blackImg none = some (profileOf blackImg none) := by
      rw [computeStats, if_neg (by decide)]
    have havg : avgChannels blackImg none = (0, 0, 0) := by
      rw [avgChannels, hpx]
      norm_num
    have hlum : statsLumas blackImg none = [0] := by
      rw [statsLumas, hpx]
      norm_num [luma]
    have hmin : statsMinL blackImg none = 0 := by
      rw [statsMinL, hlum, List.foldl_cons, List.foldl_nil]
      exact min_eq_right (by norm_num)
    have hmax : statsMaxL blackImg none = 0 := by
      rw [statsMaxL, hlum, List.foldl_cons, List.foldl_nil]
      exact max_self 0
    have hhsl : rgbToHsl (0 : ℚ) 0 0 = (0, 0, 0) := by
      have hc : maxc ((0 : ℚ) / 255) (0 / 255) (0 / 255) =
          minc ((0 : ℚ) / 255) (0 / 255) (0 / 255) := by
        norm_num [maxc, minc]
      rw [rgbToHsl, rgbToHslAux, if_pos hc]
      norm_num [lig, maxc, minc]
    have havgHex : (profileOf blackImg none).avgHex = "#000000" := by
      show toHex ((round (avgChannels blackImg none).1).toNat,
        (round (avgChannels blackImg none).2.1).toNat,
        (round (avgChannels blackImg none).2.2).toNat) = _
      rw [havg]
      norm_num [round_zero]
      decide
    have hcontrast : (profileOf blackImg none).contrast = 0 := by
      show round (statsMaxL blackImg none - statsMinL blackImg none) = 0
      rw [hmax, hmin]
      norm_num [round_zero]
    have hvibe : (profileOf blackImg none).vibe = "moody & bold" := by
      show (if (rgbToHsl (avgChannels blackImg none).1 (avgChannels blackImg none).2.1
              (avgChannels blackImg none).2.2).2.1 > 45 ∧
            (rgbToHsl (avgChannels blackImg none).1 (avgChannels blackImg none).2.1
              (avgChannels blackImg none).2.2).2.2 > 60 then "vibrant & playful"
         else if (rgbToHsl (avgChannels blackImg none).1 (avgChannels blackImg none).2.1
              (avgChannels blackImg none).2.2).2.1 < 20 ∧
            statsMaxL blackImg none - statsMinL blackImg none > 140 then "classic & sharp"
         else if (rgbToHsl (avgChannels blackImg none).1 (avgChannels blackImg none).2.1
              (avgChannels blackImg none).2.2).2.2 < 35 then "moody & bold"
         else "clean & minimal") = _
      rw [havg, hmax, hmin]
      simp only [hhsl]
      norm_num
    rw [hcs]
    simp [havgHex, hcontrast, hvibe]

/-- Witness for the universally quantified part of C5 at the all-black
1-by-1 image. -/
theorem vibe_spec_witness :
    (includedPixels blackImg none).length ≠ 0 ∧
    computeStats blackImg none = some (profileOf blackImg none) :=
  ⟨by decide, (vibe_spec.1 blackImg none (by decide)).1⟩

/-! ## C8: profile invariants (contrast range, swatch count/order/fractions) -/

theorem foldl_min_le_init {α : Type} [LinearOrder α] (l : List α) (i : α) :
    l.foldl min i ≤ i := by
  induction l generalizing i with
  | nil => exact le_refl i
  | cons a t ih => exact le_trans (ih (min i a)) (min_le_left i a)

theorem foldl_min_le_mem {α : Type} [LinearOrder α] {l : List α} {a : α}
    (ha : a ∈ l) (i : α) : l.foldl min i ≤ a := by
  induction l generalizing i with
  | nil => cases ha
  | cons b t ih =>
    rcases List.mem_cons.mp ha with h | h
    · subst h
      exact le_trans (foldl_min_le_init t (min i a)) (min_le_right i a)
    · exact ih h (min i b)

theorem le_foldl_min {α : Type} [LinearOrder α] {l : List α} {c i : α}
    (hi : c ≤ i) (h : ∀ a ∈ l, c ≤ a) : c ≤ l.foldl min i := by
  induction l generalizing i with
  | nil => exact hi
  | cons b t ih =>
    exact ih (le_min hi (h b (List.mem_cons_self b t)))
      fun a ha => h a (List.mem_cons_of_mem b ha)

theorem init_le_foldl_max {α : Type} [LinearOrder α] (l : List α) (i : α) :
    i ≤ l.foldl max i := by
  induction l generalizing i with
  | nil => exact le_refl i
  | cons a t ih => exact le_trans (le_max_left i a) (ih (max i a))

theorem mem_le_foldl_max {α : Type} [LinearOrder α] {l : List α} {a : α}
    (ha : a ∈ l) (i : α) : a ≤ l.foldl max i := by
  induction l generalizing i with
  | nil => cases ha
  | cons b t ih =>
    rcases List.mem_cons.mp ha with h | h
    · subst h
      exact le_trans (le_max_right i a) (init_le_foldl_max t (max i a))
    · exact ih h (max i b)

theorem foldl_max_le {α : Type} [LinearOrder α] {l : List α} {c i : α}
    (hi : i ≤ c) (h : ∀ a ∈ l, a ≤ c) : l.foldl max i ≤ c := by
  induction l generalizing i with
  | nil => exact hi
  | cons b t ih =>
    exact ih (max_le hi (h b (List.mem_cons_self b t)))
      fun a ha => h a (List.mem_cons_of_mem b ha)

theorem luma_nonneg (p : ℕ × ℕ × ℕ) : 0 ≤ luma p := by
  unfold luma
  positivity

theorem luma_le_255 {p : ℕ × ℕ × ℕ} (h1 : p.1 ≤ 255) (h2 : p.2.1 ≤ 255)
    (h3 : p.2.2 ≤ 255) : luma p ≤ 255 := by
  unfold luma
  have c1 : (p.1 : ℚ) ≤ 255 := by exact_mod_cast h1
  have c2 : (p.2.1 : ℚ) ≤ 255 := by exact_mod_cast h2
  have c3 : (p.2.2 : ℚ) ≤ 255 := by exact_mod_cast h3
  norm_num
  linarith

theorem getD_le_255 {img : ImageData} (hwf : img.WF) (i : ℕ) :
    img.data.getD i 0 ≤ 255 := by
  rw [List.getD_eq_getElem?_getD]
  cases h : img.data[i]? with
  | none => simp
  | some v =>
    simp only [Option.getD_some]
    exact hwf.2 v (List.getElem?_mem h)

theorem mem_includedPixels_le {img : ImageData} (hwf : img.WF)
    {mask : Option (List ℕ)} {p : ℕ × ℕ × ℕ} (hp : p ∈ includedPixels img mask) :
    p.1 ≤ 255 ∧ p.2.1 ≤ 255 ∧ p.2.2 ≤ 255 := by
  rw [includedPixels, List.mem_map] at hp
  obtain ⟨yx, _, rfl⟩ := hp
  exact ⟨getD_le_255 hwf _, getD_le_255 hwf _, getD_le_255 hwf _⟩

theorem statsLumas_bounds {img : ImageData} {mask : Option (List ℕ)} (hwf : img.WF) :
    ∀ l ∈ statsLumas img mask, 0 ≤ l ∧ l ≤ 255 := by
  intro l hl
  rw [statsLumas, List.mem_map] at hl
  obtain ⟨p, hp, rfl⟩ := hl
  obtain ⟨h1, h2, h3⟩ := mem_includedPixels_le hwf hp
  exact ⟨luma_nonneg p, luma_le_255 h1 h2 h3⟩

theorem contrastRaw_bounds {img : ImageData} {mask : Option (List ℕ)} (hwf : img.WF)
    (hne : statsLumas img mask ≠ []) :
    0 ≤ statsMaxL img mask - statsMinL img mask ∧
    statsMaxL img mask - statsMinL img mask ≤ 255 := by
  obtain ⟨l0, hl0⟩ := List.exists_mem_of_ne_nil _ hne
  have hminle : statsMinL img mask ≤ l0 := foldl_min_le_mem hl0 255
  have hlemax : l0 ≤ statsMaxL img mask := mem_le_foldl_max hl0 0
  have hmin0 : (0 : ℚ) ≤ statsMinL img mask :=
    le_foldl_min (by norm_num) fun a ha => (statsLumas_bounds hwf a ha).1
  have hmax255 : statsMaxL img mask ≤ 255 :=
    foldl_max_le (by norm_num) fun a ha => (statsLumas_bounds hwf a ha).2
  constructor <;> linarith

theorem round_nonneg_of_nonneg {x : ℚ} (h : 0 ≤ x) : 0 ≤ round x := by
  rw [round_eq]
  exact Int.floor_nonneg.mpr (by linarith)

theorem round_le_255_of_le {x : ℚ} (h : x ≤ 255) : round x ≤ 255 := by
  rw [round_eq]
  have h1 : ⌊x + 1 / 2⌋ ≤ ⌊(255 : ℚ) + 1 / 2⌋ := Int.floor_le_floor (by linarith)
  have h2 : ⌊(255 : ℚ) + 1 / 2⌋ = 255 := by norm_num
  omega

theorem addKey_sum (t : List ((ℕ × ℕ × ℕ) × ℕ)) (k : ℕ × ℕ × ℕ) :
    ((addKey t k).map fun kc => kc.2).sum = ((t.map fun kc => kc.2).sum) + 1 := by
  induction t with
  | nil => rfl
  | cons a t ih =>
    rcases a with ⟨k2, c⟩
    rw [addKey]
    by_cases hk : k = k2
    · rw [if_pos hk]
      simp only [List.map_cons, List.sum_cons]
      omega
    · rw [if_neg hk]
      simp only [List.map_cons, List.sum_cons, ih]
      omega

theorem foldl_addKey_sum (l : List (ℕ × ℕ × ℕ)) (init : List ((ℕ × ℕ × ℕ) × ℕ)) :
    (((l.foldl (fun t p => addKey t (qkeyOf p)) init).map fun kc => kc.2).sum) =
      ((init.map fun kc => kc.2).sum) + l.length := by
  induction l generalizing init with
  | nil => simp
  | cons p l ih =>
    rw [List.foldl_cons, ih, addKey_sum, List.length_cons]
    omega

theorem statsBuckets_sum (img : ImageData) (mask : Option (List ℕ)) :
    (((statsBuckets img mask).map fun kc => kc.2).sum) =
      (includedPixels img mask).length := by
  rw [statsBuckets, foldl_addKey_sum]
  simp

theorem sum_map_div (l : List ((ℕ × ℕ × ℕ) × ℕ)) (N : ℚ) :
    (l.map fun kc => (kc.2 : ℚ) / N).sum = (((l.map fun kc => kc.2).sum : ℕ) : ℚ) / N := by
  induction l with
  | nil => simp
  | cons a t ih =>
    simp only [List.map_cons, List.sum_cons, ih]
    push_cast
    ring

/-- C8: for every non-empty region of a well-formed image, the profile that
`computeStats` produces has contrast in `[0, 255]`, at most 5 dominant
swatches sorted by descending pixel count (equivalently by descending
fraction, the denominators being equal), and swatch fractions summing to at
most 1. -/
theorem region_profile_invariants (img : ImageData) (mask : Option (List ℕ))
    (hwf : img.WF) (hne : (includedPixels img mask).length ≠ 0) :
    computeStats img mask = some (profileOf img mask) ∧
    0 ≤ (profileOf img mask).contrast ∧ (profileOf img mask).contrast ≤ 255 ∧
    (profileOf img mask).dominant.length ≤ 5 ∧
    (profileOf img mask).dominant.Pairwise (fun a b => b.frac ≤ a.frac) ∧
    ((profileOf img mask).dominant.map fun s => s.frac).sum ≤ 1 := by
  have hlne : statsLumas img mask ≠ [] := by
    rw [statsLumas]
    intro hc
    exact hne (by rw [List.map_eq_nil_iff] at hc; rw [hc]; rfl)
  obtain ⟨hc0, hc255⟩ := contrastRaw_bounds hwf hlne
  have hcon : (profileOf img mask).contrast =
      round (statsMaxL img mask - statsMinL img mask) := rfl
  have hdom : (profileOf img mask).dominant = topSwatches img mask := rfl
  have hN : (0 : ℚ) < ((includedPixels img mask).length : ℚ) := by
    exact_mod_cast Nat.pos_of_ne_zero hne
  -- sortedness of the merge-sorted bucket table
  have htrans : ∀ a b c : (ℕ × ℕ × ℕ) × ℕ,
      decide (b.2 ≤ a.2) = true → decide (c.2 ≤ b.2) = true →
      decide (c.2 ≤ a.2) = true := by
    intro a b c h1 h2
    simp only [decide_eq_true_eq] at h1 h2 ⊢
    exact le_trans h2 h1
  have htot : ∀ a b : (ℕ × ℕ × ℕ) × ℕ,
      (decide (b.2 ≤ a.2) || decide (a.2 ≤ b.2)) = true := by
    intro a b
    simp only [Bool.or_eq_true, decide_eq_true_eq]
    exact (Nat.le_total b.2 a.2)
  have hsorted := List.sorted_mergeSort htrans htot (statsBuckets img mask)
  have hperm := List.mergeSort_perm (statsBuckets img mask)
    fun a b : (ℕ × ℕ × ℕ) × ℕ => decide (b.2 ≤ a.2)
  refine ⟨by rw [computeStats, if_neg hne], ?_, ?_, ?_, ?_, ?_⟩
  · rw [hcon]
    exact round_nonneg_of_nonneg hc0
  · rw [hcon]
    exact round_le_255_of_le hc255
  · rw [hdom, topSwatches, List.length_map]
    exact List.length_take_le 5 _
  · rw [hdom, topSwatches, List.pairwise_map]
    have h5 : ((((statsBuckets img mask).mergeSort fun a b =>
        decide (b.2 ≤ a.2)).take 5)).Pairwise fun a b => decide (b.2 ≤ a.2) = true :=
      List.Pairwise.sublist (List.take_sublist 5 _) hsorted
    refine h5.imp ?_
    intro a b hab
    simp only [decide_eq_true_eq] at hab
    show (b.2 : ℚ) / ((includedPixels img mask).length : ℚ) ≤
      (a.2 : ℚ) / ((includedPixels img mask).length : ℚ)
    exact (div_le_div_iff_of_pos_right hN).mpr (by exact_mod_cast hab)
  · rw [hdom, topSwatches, List.map_map]
    have hcomp : ((fun s : Swatch => s.frac) ∘ fun kc : (ℕ × ℕ × ℕ) × ℕ =>
        ({ rgb := bucketCenter kc.1, hex := toHex (bucketCenter kc.1),
           frac := (kc.2 : ℚ) / ((includedPixels img mask).length : ℚ) } : Swatch)) =
        fun kc : (ℕ × ℕ × ℕ) × ℕ =>
          (kc.2 : ℚ) / ((includedPixels img mask).length : ℚ) := rfl
    rw [hcomp, sum_map_div]
    refine (div_le_one hN).mpr ?_
    have htake : ((((statsBuckets img mask).mergeSort fun a b =>
          decide (b.2 ≤ a.2)).take 5).map fun kc => kc.2).sum ≤
        (((statsBuckets img mask).mergeSort fun a b =>
          decide (b.2 ≤ a.2)).map fun kc => kc.2).sum := by
      conv_rhs => rw [← List.take_append_drop 5 ((statsBuckets img mask).mergeSort
        fun a b => decide (b.2 ≤ a.2))]
      rw [List.map_append, List.sum_append]
      exact Nat.le_add_right _ _
    have hperm2 : (((statsBuckets img mask).mergeSort fun a b =>
          decide (b.2 ≤ a.2)).map fun kc => kc.2).sum =
        ((statsBuckets img mask).map fun kc => kc.2).sum :=
      (hperm.map fun kc => kc.2).sum_eq
    have hfinal : ((((statsBuckets img mask).mergeSort fun a b =>
          decide (b.2 ≤ a.2)).take 5).map fun kc => kc.2).sum ≤
        (includedPixels img mask).length := by
      rw [← statsBuckets_sum img mask]
      omega
    exact_mod_cast hfinal

/-- Witness for C8 at the all-black 1-by-1 image. -/
theorem region_profile_invariants_witness :
    blackImg.WF ∧ (includedPixels blackImg none).length ≠ 0 ∧
    computeStats blackImg none = some (profileOf blackImg none) :=
  ⟨by decide, by decide, (region_profile_invariants blackImg none (by decide) (by decide)).1⟩

/-! ## C1: the RGB -> HSL -> RGB round trip

The proof shows the round trip is exact in rational arithmetic: for integer
channels the recovered triple equals the original, which implies the claimed
tolerance of one per channel. -/

theorem hue2rgb_seg1 (p q t : ℚ) (h0 : 0 ≤ t) (h1 : t < 1/6) :
    hue2rgb p q t = p + (q - p) * 6 * t := by
  have hw1 : ¬ t < 0 := not_lt.mpr h0
  have hw2 : ¬ t > 1 := not_lt.mpr (by linarith)
  simp only [hue2rgb]
  rw [if_neg hw1, if_neg hw2, if_pos h1]

theorem hue2rgb_seg2 (p q t : ℚ) (h0 : 1/6 ≤ t) (h1 : t < 1/2) :
    hue2rgb p q t = q := by
  have hw1 : ¬ t < 0 := not_lt.mpr (by linarith)
  have hw2 : ¬ t > 1 := not_lt.mpr (by linarith)
  simp only [hue2rgb]
  rw [if_neg hw1, if_neg hw2, if_neg (not_lt.mpr h0), if_pos h1]

theorem hue2rgb_seg3 (p q t : ℚ) (h0 : 1/2 ≤ t) (h1 : t < 2/3) :
    hue2rgb p q t = p + (q - p) * (2/3 - t) * 6 := by
  have hw1 : ¬ t < 0 := not_lt.mpr (by linarith)
  have hw2 : ¬ t > 1 := not_lt.mpr (by linarith)
  simp only [hue2rgb]
  rw [if_neg hw1, if_neg hw2, if_neg (not_lt.mpr (by linarith : (1:ℚ)/6 ≤ t)),
    if_neg (not_lt.mpr h0), if_pos h1]

theorem hue2rgb_seg4 (p q t : ℚ) (h0 : 2/3 ≤ t) (h1 : t ≤ 1) :
    hue2rgb p q t = p := by
  have hw1 : ¬ t < 0 := not_lt.mpr (by linarith)
  have hw2 : ¬ t > 1 := not_lt.mpr h1
  simp only [hue2rgb]
  rw [if_neg hw1, if_neg hw2, if_neg (not_lt.mpr (by linarith : (1:ℚ)/6 ≤ t)),
    if_neg (not_lt.mpr (by linarith : (1:ℚ)/2 ≤ t)), if_neg (not_lt.mpr h0)]

theorem hue2rgb_wrap_neg (p q t : ℚ) (h0 : t < 0) (h1 : 0 ≤ t + 1) :
    hue2rgb p q t = hue2rgb p q (t + 1) := by
  have ha : ¬ t + 1 > 1 := not_lt.mpr (by linarith)
  have hb : ¬ t + 1 < 0 := not_lt.mpr h1
  simp only [hue2rgb]
  rw [if_pos h0, if_neg hb, if_neg ha]

theorem hue2rgb_wrap_gt1 (p q t : ℚ) (h0 : t > 1) (h1 : t - 1 ≤ 1) :
    hue2rgb p q t = hue2rgb p q (t - 1) := by
  have ha : ¬ t < 0 := not_lt.mpr (by linarith)
  have hb : ¬ t - 1 < 0 := not_lt.mpr (by linarith)
  have hc : ¬ t - 1 > 1 := not_lt.mpr h1
  simp only [hue2rgb]
  rw [if_neg ha, if_pos h0, if_neg hb, if_neg hc]

theorem minc_le_maxc (r g b : ℚ) : minc r g b ≤ maxc r g b :=
  le_trans (min_le_left r (min g b)) (le_max_left r (max g b))

theorem sat_pos {r g b : ℚ} (hlt : minc r g b < maxc r g b) (h0 : 0 ≤ minc r g b)
    (h1 : maxc r g b ≤ 1) : 0 < sat r g b := by
  have hnum : 0 < maxc r g b - minc r g b := sub_pos.mpr hlt
  rw [sat]
  by_cases hc : lig r g b > 1/2
  · rw [if_pos hc]
    exact div_pos hnum (by linarith)
  · rw [if_neg hc]
    exact div_pos hnum (by linarith)

theorem q_eq {r g b : ℚ} (hlt : minc r g b < maxc r g b) (h0 : 0 ≤ minc r g b)
    (h1 : maxc r g b ≤ 1) :
    (if lig r g b < 1/2 then lig r g b * (1 + sat r g b)
     else lig r g b + sat r g b - lig r g b * sat r g b) = maxc r g b := by
  have hsum_pos : 0 < maxc r g b + minc r g b := by linarith
  have h2pos : 0 < 2 - maxc r g b - minc r g b := by linarith
  rcases lt_trichotomy (lig r g b) (1/2) with hL | hL | hL
  · rw [if_pos hL, sat, if_neg (not_lt.mpr (le_of_lt hL)), lig] at *
    field_simp
    ring
  · have hsum : maxc r g b + minc r g b = 1 := by
      rw [lig] at hL
      linarith
    rw [if_neg (by rw [hL]; exact lt_irrefl _), sat,
      if_neg (by rw [hL]; exact lt_irrefl _), lig, hsum]
    have hmn : minc r g b = 1 - maxc r g b := by linarith
    rw [hmn]
    ring
  · rw [if_neg (not_lt.mpr (le_of_lt hL)), sat, if_pos hL, lig] at *
    field_simp
    ring

theorem hslChannels_rgbToHslAux (R G B : ℚ)
    (h0R : 0 ≤ R) (h1R : R ≤ 1) (h0G : 0 ≤ G) (h1G : G ≤ 1)
    (h0B : 0 ≤ B) (h1B : B ≤ 1) :
    hslChannels (rgbToHslAux R G B).1 (rgbToHslAux R G B).2.1
      (rgbToHslAux R G B).2.2 = (R, G, B) := by
  have hRmx : R ≤ maxc R G B := le_max_left _ _
  have hGmx : G ≤ maxc R G B := le_trans (le_max_left G B) (le_max_right R _)
  have hBmx : B ≤ maxc R G B := le_trans (le_max_right G B) (le_max_right R _)
  have hmnR : minc R G B ≤ R := min_le_left _ _
  have hmnG : minc R G B ≤ G := le_trans (min_le_right R _) (min_le_left G B)
  have hmnB : minc R G B ≤ B := le_trans (min_le_right R _) (min_le_right G B)
  by_cases hc : maxc R G B = minc R G B
  · -- achromatic branch: all three channels coincide
    have hmnR2 : minc R G B = R := le_antisymm hmnR (by rw [← hc]; exact hRmx)
    have hmnG2 : minc R G B = G := le_antisymm hmnG (by rw [← hc]; exact hGmx)
    have hmnB2 : minc R G B = B := le_antisymm hmnB (by rw [← hc]; exact hBmx)
    have hr : rgbToHslAux R G B = (0, 0, lig R G B * 100) := by
      rw [rgbToHslAux, if_pos hc]
    rw [hr]
    simp only [hslChannels]
    rw [if_pos (by norm_num : (0 : ℚ) / 100 = 0)]
    rw [mul_div_cancel_right₀ (lig R G B) (by norm_num : (100 : ℚ) ≠ 0)]
    have hlig : lig R G B = R := by rw [lig, hc, hmnR2]; ring
    have hGR : G = R := by rw [← hmnG2]; exact hmnR2
    have hBR : B = R := by rw [← hmnB2]; exact hmnR2
    rw [hlig, hGR, hBR]
  · -- chromatic branch
    have hlt : minc R G B < maxc R G B :=
      lt_of_le_of_ne (minc_le_maxc R G B) fun h => hc h.symm
    have hmn0 : 0 ≤ minc R G B := le_min h0R (le_min h0G h0B)
    have hmx1 : maxc R G B ≤ 1 := max_le h1R (max_le h1G h1B)
    have hs_pos : 0 < sat R G B := sat_pos hlt hmn0 hmx1
    have hr : rgbToHslAux R G B =
        (hue6 R G B / 6 * 360, sat R G B * 100, lig R G B * 100) := by
      rw [rgbToHslAux, if_neg hc]
    rw [hr]
    simp only [hslChannels]
    rw [mul_div_cancel_right₀ (hue6 R G B / 6) (by norm_num : (360 : ℚ) ≠ 0),
      mul_div_cancel_right₀ (sat R G B) (by norm_num : (100 : ℚ) ≠ 0),
      mul_div_cancel_right₀ (lig R G B) (by norm_num : (100 : ℚ) ≠ 0)]
    rw [if_neg (ne_of_gt hs_pos)]
    rw [q_eq hlt hmn0 hmx1]
    have hp2 : 2 * lig R G B - maxc R G B = minc R G B := by rw [lig]; ring
    rw [hp2]
    simp only [Prod.mk.injEq]
    by_cases hxR : maxc R G B = R
    · -- the switch fires on case r
      have hGR : G ≤ R := by rw [← hxR]; exact hGmx
      have hBR : B ≤ R := by rw [← hxR]; exact hBmx
      by_cases hgb : G < B
      · -- min is G, hue in [5, 6)
        have hmn : minc R G B = G := by
          rw [minc, min_eq_left (le_of_lt hgb), min_eq_right hGR]
        have hd_pos : 0 < R - G := sub_pos.mpr (lt_of_lt_of_le hgb hBR)
        have hh6 : hue6 R G B = (G - B) / (R - G) + 6 := by
          rw [hue6, if_pos hxR, if_pos hgb, hxR, hmn]
        have hrat_neg : (G - B) / (R - G) < 0 :=
          div_neg_of_neg_of_pos (by linarith) hd_pos
        have hrat_ge : -1 ≤ (G - B) / (R - G) :=
          (le_div_iff₀ hd_pos).mpr (by linarith)
        rw [hh6, hxR, hmn]
        refine ⟨?_, ?_, ?_⟩
        · rw [hue2rgb_wrap_gt1 _ _ _ (by linarith) (by linarith),
            hue2rgb_seg2 _ _ _ (by linarith) (by linarith)]
        · rw [hue2rgb_seg4 _ _ _ (by linarith) (by linarith)]
        · rw [hue2rgb_seg3 _ _ _ (by linarith) (by linarith)]
          field_simp
          ring
      · -- min is B, hue in [0, 1]
        have hbg : B ≤ G := not_lt.mp hgb
        have hmn : minc R G B = B := by
          rw [minc, min_eq_right hbg, min_eq_right hBR]
        have hd_pos : 0 < R - B := by
          have h2 := hlt
          rw [hxR, hmn] at h2
          linarith
        have hh6 : hue6 R G B = (G - B) / (R - B) := by
          rw [hue6, if_pos hxR, if_neg hgb, hxR, hmn]
          ring
        have hrat_0 : 0 ≤ (G - B) / (R - B) := div_nonneg (by linarith) (le_of_lt hd_pos)
        have hrat_1 : (G - B) / (R - B) ≤ 1 := (div_le_one hd_pos).mpr (by linarith)
        rw [hh6, hxR, hmn]
        refine ⟨?_, ?_, ?_⟩
        · by_cases hG1 : G < R
          · have h6lt : (G - B) / (R - B) < 1 := (div_lt_one hd_pos).mpr (by linarith)
            rw [hue2rgb_seg2 _ _ _ (by linarith) (by linarith)]
          · have hGR2 : G = R := le_antisymm hGR (not_lt.mp hG1)
            have h6eq : (G - B) / (R - B) = 1 := by
              rw [hGR2]
              exact div_self (ne_of_gt hd_pos)
            rw [h6eq, hue2rgb_seg3 _ _ _ (by norm_num) (by norm_num)]
            ring
        · by_cases hG1 : G < R
          · have h6lt : (G - B) / (R - B) < 1 := (div_lt_one hd_pos).mpr (by linarith)
            rw [hue2rgb_seg1 _ _ _ (by linarith) (by linarith)]
            field_simp
          · have hGR2 : G = R := le_antisymm hGR (not_lt.mp hG1)
            have h6eq : (G - B) / (R - B) = 1 := by
              rw [hGR2]
              exact div_self (ne_of_gt hd_pos)
            rw [h6eq, hue2rgb_seg2 _ _ _ (by norm_num) (by norm_num)]
            exact hGR2.symm
        · rw [hue2rgb_wrap_neg _ _ _ (by linarith) (by linarith),
            hue2rgb_seg4 _ _ _ (by linarith) (by linarith)]
    · by_cases hxG : maxc R G B = G
      · -- the switch fires on case g
        have hBG : B ≤ G := by rw [← hxG]; exact hBmx
        have hRG : R < G :=
          lt_of_le_of_ne (by rw [← hxG]; exact hRmx) fun h => hxR (by rw [hxG, ← h])
        by_cases hbr : B ≤ R
        · -- min is B, hue in (1, 2]
          have hmn : minc R G B = B := by
            rw [minc, min_eq_right hBG, min_eq_right hbr]
          have hd_pos : 0 < G - B := sub_pos.mpr (lt_of_le_of_lt hbr hRG)
          have hh6 : hue6 R G B = (B - R) / (G - B) + 2 := by
            rw [hue6, if_neg hxR, if_pos hxG, hxG, hmn]
          have hrat_np : (B - R) / (G - B) ≤ 0 :=
            div_nonpos_of_nonpos_of_nonneg (by linarith) (le_of_lt hd_pos)
          have hrat_gt : -1 < (B - R) / (G - B) :=
            (lt_div_iff₀ hd_pos).mpr (by linarith)
          rw [hh6, hxG, hmn]
          refine ⟨?_, ?_, ?_⟩
          · by_cases hb2 : B < R
            · have hrat_lt : (B - R) / (G - B) < 0 :=
                div_neg_of_neg_of_pos (by linarith) hd_pos
              rw [hue2rgb_seg3 _ _ _ (by linarith) (by linarith)]
              field_simp
              ring
            · have hBR2 : B = R := le_antisymm hbr (not_lt.mp hb2)
              have h6eq : (B - R) / (G - B) = 0 := by
                rw [show B - R = 0 by linarith, zero_div]
              rw [h6eq, hue2rgb_seg4 _ _ _ (by norm_num) (by norm_num)]
              exact hBR2
          · rw [hue2rgb_seg2 _ _ _ (by linarith) (by linarith)]
          · by_cases hb2 : B < R
            · have hrat_lt : (B - R) / (G - B) < 0 :=
                div_neg_of_neg_of_pos (by linarith) hd_pos
              rw [hue2rgb_wrap_neg _ _ _ (by linarith) (by linarith),
                hue2rgb_seg4 _ _ _ (by linarith) (by linarith)]
            · have h6eq : (B - R) / (G - B) = 0 := by
                rw [show B - R = 0 by linarith, zero_div]
              rw [h6eq, hue2rgb_seg1 _ _ _ (by norm_num) (by norm_num)]
              ring
        · -- min is R, hue in (2, 3]
          have hrb : R < B := not_le.mp hbr
          have hmn : minc R G B = R := by
            rw [minc, min_eq_right hBG, min_eq_left (le_of_lt hrb)]
          have hd_pos : 0 < G - R := sub_pos.mpr hRG
          have hh6 : hue6 R G B = (B - R) / (G - R) + 2 := by
            rw [hue6, if_neg hxR, if_pos hxG, hxG, hmn]
          have hrat_pos : 0 < (B - R) / (G - R) := div_pos (by linarith) hd_pos
          have hrat_le : (B - R) / (G - R) ≤ 1 := (div_le_one hd_pos).mpr (by linarith)
          rw [hh6, hxG, hmn]
          refine ⟨?_, ?_, ?_⟩
          · rw [hue2rgb_seg4 _ _ _ (by linarith) (by linarith)]
          · by_cases hb2 : B < G
            · have hrat_lt : (B - R) / (G - R) < 1 := (div_lt_one hd_pos).mpr (by linarith)
              rw [hue2rgb_seg2 _ _ _ (by linarith) (by linarith)]
            · have hBG2 : B = G := le_antisymm hBG (not_lt.mp hb2)
              have h6eq : (B - R) / (G - R) = 1 := by
                rw [hBG2]
                exact div_self (ne_of_gt hd_pos)
              rw [h6eq, hue2rgb_seg3 _ _ _ (by norm_num) (by norm_num)]
              ring
          · by_cases hb2 : B < G
            · have hrat_lt : (B - R) / (G - R) < 1 := (div_lt_one hd_pos).mpr (by linarith)
              rw [hue2rgb_seg1 _ _ _ (by linarith) (by linarith)]
              field_simp
              ring
            · have hBG2 : B = G := le_antisymm hBG (not_lt.mp hb2)
              have h6eq : (B - R) / (G - R) = 1 := by
                rw [hBG2]
                exact div_self (ne_of_gt hd_pos)
              rw [h6eq, hue2rgb_seg2 _ _ _ (by norm_num) (by norm_num)]
              exact hBG2.symm
      · -- the switch falls through to case b
        have hxB : maxc R G B = B := by
          rcases max_choice R (max G B) with h | h
          · exact absurd h hxR
          · rcases max_choice G B with h2 | h2
            · exact absurd (by rw [maxc, h, h2]) hxG
            · rw [maxc, h, h2]
        have hRB : R < B :=
          lt_of_le_of_ne (by rw [← hxB]; exact hRmx) fun h => hxR (by rw [hxB, ← h])
        have hGB : G < B :=
          lt_of_le_of_ne (by rw [← hxB]; exact hGmx) fun h => hxG (by rw [hxB, ← h])
        by_cases hgr : G ≤ R
        · -- min is G, hue in [4, 5)
          have hmn : minc R G B = G := by
            rw [minc, min_eq_left (le_of_lt hGB), min_eq_right hgr]
          have hd_pos : 0 < B - G := sub_pos.mpr hGB
          have hh6 : hue6 R G B = (R - G) / (B - G) + 4 := by
            rw [hue6, if_neg hxR, if_neg hxG, hxB, hmn]
          have hrat_0 : 0 ≤ (R - G) / (B - G) := div_nonneg (by linarith) (le_of_lt hd_pos)
          have hrat_lt : (R - G) / (B - G) < 1 := (div_lt_one hd_pos).mpr (by linarith)
          rw [hh6, hxB, hmn]
          refine ⟨?_, ?_, ?_⟩
          · by_cases hg2 : G < R
            · have hrat_pos : 0 < (R - G) / (B - G) := div_pos (by linarith) hd_pos
              rw [hue2rgb_wrap_gt1 _ _ _ (by linarith) (by linarith),
                hue2rgb_seg1 _ _ _ (by linarith) (by linarith)]
              field_simp
              ring
            · have hGR2 : G = R := le_antisymm hgr (not_lt.mp hg2)
              have h6eq : (R - G) / (B - G) = 0 := by
                rw [show R - G = 0 by linarith, zero_div]
              rw [h6eq, hue2rgb_seg4 _ _ _ (by norm_num) (by norm_num)]
              exact hGR2
          · rw [hue2rgb_seg4 _ _ _ (by linarith) (by linarith)]
          · rw [hue2rgb_seg2 _ _ _ (by linarith) (by linarith)]
        · -- min is R, hue in (3, 4)
          have hrg : R < G := not_le.mp hgr
          have hmn : minc R G B = R := by
            rw [minc, min_eq_left (le_of_lt hGB), min_eq_left (le_of_lt hrg)]
          have hd_pos : 0 < B - R := sub_pos.mpr hRB
          have hh6 : hue6 R G B = (R - G) / (B - R) + 4 := by
            rw [hue6, if_neg hxR, if_neg hxG, hxB, hmn]
          have hrat_neg : (R - G) / (B - R) < 0 :=
            div_neg_of_neg_of_pos (by linarith) hd_pos
          have hrat_gt : -1 < (R - G) / (B - R) :=
            (lt_div_iff₀ hd_pos).mpr (by linarith)
          rw [hh6, hxB, hmn]
          refine ⟨?_, ?_, ?_⟩
          · rw [hue2rgb_seg4 _ _ _ (by linarith) (by linarith)]
          · rw [hue2rgb_seg3 _ _ _ (by linarith) (by linarith)]
            field_simp
            ring
          · rw [hue2rgb_seg2 _ _ _ (by linarith) (by linarith)]

theorem rgbToHsl_hslToRgb_exact (r g b : ℕ) (hr : r ≤ 255) (hg : g ≤ 255)
    (hb : b ≤ 255) :
    hslToRgb (rgbToHsl r g b).1 (rgbToHsl r g b).2.1 (rgbToHsl r g b).2.2 =
      ((r : ℤ), (g : ℤ), (b : ℤ)) := by
  have h0R : (0 : ℚ) ≤ (r : ℚ) / 255 := by positivity
  have h1R : (r : ℚ) / 255 ≤ 1 := by
    rw [div_le_one (by norm_num)]
    exact_mod_cast hr
  have h0G : (0 : ℚ) ≤ (g : ℚ) / 255 := by positivity
  have h1G : (g : ℚ) / 255 ≤ 1 := by
    rw [div_le_one (by norm_num)]
    exact_mod_cast hg
  have h0B : (0 : ℚ) ≤ (b : ℚ) / 255 := by positivity
  have h1B : (b : ℚ) / 255 ≤ 1 := by
    rw [div_le_one (by norm_num)]
    exact_mod_cast hb
  have hcore := hslChannels_rgbToHslAux ((r : ℚ) / 255) ((g : ℚ) / 255) ((b : ℚ) / 255)
    h0R h1R h0G h1G h0B h1B
  have e := congrArg (fun t : ℚ × ℚ × ℚ =>
    (round (t.1 * 255), round (t.2.1 * 255), round (t.2.2 * 255))) hcore
  have h2 : (round ((r : ℚ) / 255 * 255), round ((g : ℚ) / 255 * 255),
      round ((b : ℚ) / 255 * 255)) = ((r : ℤ), (g : ℤ), (b : ℤ)) := by
    rw [div_mul_cancel₀ _ (by norm_num : (255 : ℚ) ≠ 0),
      div_mul_cancel₀ _ (by norm_num : (255 : ℚ) ≠ 0),
      div_mul_cancel₀ _ (by norm_num : (255 : ℚ) ≠ 0),
      round_natCast, round_natCast, round_natCast]
  exact e.trans h2

/-- C1: converting any byte RGB triple with `rgbToHsl` and back with
`hslToRgb` reproduces the original triple within one per channel (in exact
rational arithmetic the round trip is in fact exact, proved in
`rgbToHsl_hslToRgb_exact`). -/
theorem rgb_hsl_roundtrip (r g b : ℕ) (hr : r ≤ 255) (hg : g ≤ 255) (hb : b ≤ 255) :
    ((hslToRgb (rgbToHsl r g b).1 (rgbToHsl r g b).2.1 (rgbToHsl r g b).2.2).1
        - (r : ℤ)).natAbs ≤ 1 ∧
    ((hslToRgb (rgbToHsl r g b).1 (rgbToHsl r g b).2.1 (rgbToHsl r g b).2.2).2.1
        - (g : ℤ)).natAbs ≤ 1 ∧
    ((hslToRgb (rgbToHsl r g b).1 (rgbToHsl r g b).2.1 (rgbToHsl r g b).2.2).2.2
        - (b : ℤ)).natAbs ≤ 1 := by
  rw [rgbToHsl_hslToRgb_exact r g b hr hg hb]
  simp

/-- Witness for C1 at the concrete triple (200, 30, 120). -/
theorem rgb_hsl_roundtrip_witness :
    (200 : ℕ) ≤ 255 ∧ (30 : ℕ) ≤ 255 ∧ (120 : ℕ) ≤ 255 ∧
    (((hslToRgb (rgbToHsl ((200 : ℕ) : ℚ) ((30 : ℕ) : ℚ) ((120 : ℕ) : ℚ)).1
          (rgbToHsl ((200 : ℕ) : ℚ) ((30 : ℕ) : ℚ) ((120 : ℕ) : ℚ)).2.1
          (rgbToHsl ((200 : ℕ) : ℚ) ((30 : ℕ) : ℚ) ((120 : ℕ) : ℚ)).2.2).1
        - ((200 : ℕ) : ℤ)).natAbs ≤ 1 ∧
     ((hslToRgb (rgbToHsl ((200 : ℕ) : ℚ) ((30 : ℕ) : ℚ) ((120 : ℕ) : ℚ)).1
          (rgbToHsl ((200 : ℕ) : ℚ) ((30 : ℕ) : ℚ) ((120 : ℕ) : ℚ)).2.1
          (rgbToHsl ((200 : ℕ) : ℚ) ((30 : ℕ) : ℚ) ((120 : ℕ) : ℚ)).2.2).2.1
        - ((30 : ℕ) : ℤ)).natAbs ≤ 1 ∧
     ((hslToRgb (rgbToHsl ((200 : ℕ) : ℚ) ((30 : ℕ) : ℚ) ((120 : ℕ) : ℚ)).1
          (rgbToHsl ((200 : ℕ) : ℚ) ((30 : ℕ) : ℚ) ((120 : ℕ) : ℚ)).2.1
          (rgbToHsl ((200 : ℕ) : ℚ) ((30 : ℕ) : ℚ) ((120 : ℕ) : ℚ)).2.2).2.2
        - ((120 : ℕ) : ℤ)).natAbs ≤ 1) :=
  ⟨by norm_num, by norm_num, by norm_num,
   rgb_hsl_roundtrip 200 30 120 (by norm_num) (by norm_num) (by norm_num)⟩

end OutfitRate
